import Mathlib

/- Shallow embedding of the scatter-chart label-declutter engine of the
gold-silver-analysis-app repository.  JavaScript numbers are idealized as
rationals; the transcendental library functions Math.log10, Math.log and
Math.pow(10, _) are abstract function parameters, since none of the
verified claims depend on their analytic values.  The repository contains
two variant implementations of the engine:
src/ScatterChart_GoogleGem_index.tsx (definitions carry the suffix GG) and
src/unnamed/part_000 (suffix P0). -/

namespace ScatterApp

/-- Scale mode of an axis, the string union type of the source. -/
inductive Scale where
  | linear
  | log
  deriving DecidableEq

/-- JavaScript number, split into its finite rationals and the three
non-finite values, so that the Number.isFinite checks of the source can be
embedded faithfully. -/
inductive JNum where
  | fin (q : ℚ)
  | posInf
  | negInf
  | nan
  deriving DecidableEq

/-- Number.isFinite. -/
def JNum.isFinite : JNum → Bool
  | .fin _ => true
  | _ => false

/-- Projection of a JavaScript number to its finite rational value. -/
def JNum.toFin? : JNum → Option ℚ
  | .fin q => some q
  | _ => none

/-- Screen point, as used by calculateDensity in both variants. -/
structure Pt where
  x : ℚ
  y : ℚ
  deriving DecidableEq

/-- Raw metric triple read off one company record by getNestedValue:
each coordinate is either null (none) or a JavaScript number. -/
structure RawPoint where
  x : Option JNum
  y : Option JNum
  z : Option JNum
  deriving DecidableEq

/-- LabelPosition record of the source: label id, position, size, density. -/
structure LabelPosition where
  id : String
  x : ℚ
  y : ℚ
  width : ℚ
  height : ℚ
  density : ℚ
  deriving DecidableEq

/-- Simulated label as consumed by the rendering step: current center
(x, y) and the anchor screen position (dataX, dataY). -/
structure SimLabel where
  id : String
  x : ℚ
  y : ℚ
  width : ℚ
  height : ℚ
  dataX : ℚ
  dataY : ℚ
  deriving DecidableEq

/-- Result type of the GoogleGem getDomain: either the explicit
string sentinel pair (auto, auto) or a numeric pair. -/
inductive Domain where
  | auto
  | numeric (lo hi : ℚ)
  deriving DecidableEq

/-- Math.min over a spread list, as used on nonempty lists in the source;
the [] case is an unused default. -/
def listMin : List ℚ → ℚ
  | [] => 0
  | h :: t => t.foldl min h

/-- Math.max over a spread list, as used on nonempty lists in the source;
the [] case is an unused default. -/
def listMax : List ℚ → ℚ
  | [] => 0
  | h :: t => t.foldl max h

/-- normalizeValues of src/ScatterChart_GoogleGem_index.tsx lines 192 to 236,
with Math.log10 as the abstract parameter log10.  Number literals 0.5, 0.6
and so on are written as exact rationals. -/
def normalizeValuesGG (log10 : ℚ → ℚ) (values : List JNum) (scale : Scale) : List ℚ :=
  if values = [] then []
  else
    let finiteValues := values.filterMap JNum.toFin?
    if finiteValues = [] then values.map (fun _ => 1/2)
    else
      match scale with
      | .log =>
        let positiveValues := finiteValues.filter (fun v => decide (0 < v))
        if positiveValues = [] then
          values.map (fun v => match v with
            | .fin q => if 0 < q then 1/2 else 0
            | _ => 0)
        else
          let minLog := log10 (listMin positiveValues)
          let maxLog := log10 (listMax positiveValues)
          if minLog = maxLog then
            values.map (fun v => match v with
              | .fin q => if 0 < q then 1/2 else 0
              | _ => 0)
          else
            values.map (fun v => match v with
              | .fin q =>
                if q ≤ 0 then 0
                else max 0 (min 1 ((log10 q - minLog) / (maxLog - minLog)))
              | _ => 0)
      | .linear =>
        let mn := listMin finiteValues
        let mx := listMax finiteValues
        if mn = mx then
          values.map (fun v => if v.isFinite then 1/2 else 0)
        else
          values.map (fun v => match v with
            | .fin q => max 0 (min 1 ((q - mn) / (mx - mn)))
            | _ => 0)

/-- normalizeValues of src/unnamed/part_000 lines 152 to 165, with Math.log
as the abstract parameter ln.  That variant performs no finiteness checks,
so its inputs are embedded directly as rationals (the idealization of the
finite JavaScript numbers all claims about it quantify over). -/
def normalizeValuesP0 (ln : ℚ → ℚ) (values : List ℚ) (scale : Scale) : List ℚ :=
  if values = [] then []
  else
    match scale with
    | .log =>
      let logValues := values.map (fun v => ln (max v 1))
      let minLog := listMin logValues
      let maxLog := listMax logValues
      logValues.map (fun v => if maxLog = minLog then 0 else (v - minLog) / (maxLog - minLog))
    | .linear =>
      let mn := listMin values
      let mx := listMax values
      values.map (fun v => if mx = mn then 0 else (v - mn) / (mx - mn))

/-- Number.isFinite applied to a possibly-null field. -/
def jIsFinite : Option JNum → Bool
  | some v => v.isFinite
  | none => false

/-- JavaScript comparison value > 0 applied to a possibly-null field that
the source has already checked to be non-null. -/
def jGtZero : Option JNum → Bool
  | some (.fin q) => decide (0 < q)
  | some .posInf => true
  | _ => false

/-- filter predicate of the transformedData memo in
src/ScatterChart_GoogleGem_index.tsx lines 367 to 373. -/
def keepGG (xs ys zs : Scale) (p : RawPoint) : Bool :=
  p.x.isSome && p.y.isSome && p.z.isSome &&
  jIsFinite p.x && jIsFinite p.y && jIsFinite p.z &&
  (decide (xs = Scale.linear) || jGtZero p.x) &&
  (decide (ys = Scale.linear) || jGtZero p.y) &&
  (decide (zs = Scale.linear) || jGtZero p.z)

/-- filter predicate of the transformedData memo in src/unnamed/part_000
lines 221 to 226: no finiteness test; the (!xScale || ...) disjunct of the
source is dropped because the scale strings are always truthy. -/
def keepP0 (xs ys zs : Scale) (p : RawPoint) : Bool :=
  p.x.isSome && p.y.isSome && p.z.isSome &&
  (decide (xs = Scale.linear) || jGtZero p.x) &&
  (decide (ys = Scale.linear) || jGtZero p.y) &&
  (decide (zs = Scale.linear) || jGtZero p.z)

/-- validPoints of the part_000 transformedData memo; the subsequent
normalizedZ decoration maps these one to one into transformedData. -/
def validPointsP0 (xs ys zs : Scale) (points : List RawPoint) : List RawPoint :=
  points.filter (keepP0 xs ys zs)

/-- decoration step of transformedData: pair each valid point with
normalizedZValues at the same index, with the given default where the
source uses the nullish fallback for an out-of-range index. -/
def attachNZ (dflt : ℚ) : List RawPoint → List ℚ → List (RawPoint × ℚ)
  | [], _ => []
  | p :: ps, [] => (p, dflt) :: attachNZ dflt ps []
  | p :: ps, w :: ws => (p, w) :: attachNZ dflt ps ws

/-- transformedData of src/ScatterChart_GoogleGem_index.tsx lines 359 to
383: filter the raw metric triples with keepGG, normalize the surviving z
values, and attach normalizedZ (default 0.5 per the nullish fallback). -/
def transformedDataGG (log10 : ℚ → ℚ) (xs ys zs : Scale) (points : List RawPoint) :
    List (RawPoint × ℚ) :=
  let validPoints := points.filter (keepGG xs ys zs)
  let zValues := validPoints.map (fun p => p.z.getD JNum.nan)
  let normalizedZValues := normalizeValuesGG log10 zValues zs
  attachNZ (1/2) validPoints normalizedZValues

/-- getDomain of src/ScatterChart_GoogleGem_index.tsx lines 386 to 419.
Literal 1.5 is 3/2, 0.1 is 1/10, 1e-9 is 1/1000000000; the JavaScript
fallback expression abs(minVal * 0.1) || 1 picks 1 exactly when the
absolute value is 0. -/
def getDomainGG (values : List JNum) (scale : Scale) : Domain :=
  let finiteValues := values.filterMap JNum.toFin?
  if finiteValues = [] then .auto
  else
    match scale with
    | .log =>
      let positiveValues := finiteValues.filter (fun v => decide (0 < v))
      if positiveValues = [] then .auto
      else
        let minVal := listMin positiveValues
        let maxVal := listMax positiveValues
        let domainMin := minVal / (3/2)
        let domainMax := maxVal * (3/2)
        .numeric (if 0 < domainMin then domainMin else 1/1000000000) domainMax
    | .linear =>
      let minVal := listMin finiteValues
      let maxVal := listMax finiteValues
      if minVal = maxVal then
        let padding := if |minVal * (1/10)| = 0 then 1 else |minVal * (1/10)|
        .numeric (minVal - padding) (minVal + padding)
      else
        let padding := (maxVal - minVal) * (1/10)
        .numeric (minVal - padding) (maxVal + padding)

/-- getDomain of src/unnamed/part_000 lines 241 to 259, with Math.log and
Math.pow(10, _) abstract as ln and pow10.  The JavaScript expression
x * 0.1 || 0.1 picks 0.1 exactly when the product is 0.  This variant
always returns a numeric pair; its empty-input result is [0, 1]. -/
def getDomainP0 (ln pow10 : ℚ → ℚ) (values : List ℚ) (scale : Scale) : ℚ × ℚ :=
  if values = [] then (0, 1)
  else
    match scale with
    | .log =>
      let logValues := values.map (fun v => ln (max v 1))
      let minLog := listMin logValues
      let maxLog := listMax logValues
      let padding := if (maxLog - minLog) * (1/10) = 0 then 1/10 else (maxLog - minLog) * (1/10)
      (pow10 (minLog - padding), pow10 (maxLog + padding))
    | .linear =>
      let mn := listMin values
      let mx := listMax values
      let padding := if (mx - mn) * (1/10) = 0 then 1/10 else (mx - mn) * (1/10)
      (mn - padding, mx + padding)

/-- mapX of src/ScatterChart_GoogleGem_index.tsx lines 455 to 467; the
Number.isFinite guards of the source hold automatically for rationals. -/
def mapX (log10 : ℚ → ℚ) (marginLeft vbWidth dMin dMax : ℚ) (scale : Scale) (dataX : ℚ) : ℚ :=
  if dMax = dMin then marginLeft
  else
    match scale with
    | .log =>
      if dataX ≤ 0 ∨ dMin ≤ 0 ∨ dMax ≤ 0 then marginLeft
      else if log10 dMin = log10 dMax then marginLeft
      else marginLeft + ((log10 dataX - log10 dMin) / (log10 dMax - log10 dMin)) * vbWidth
    | .linear => marginLeft + ((dataX - dMin) / (dMax - dMin)) * vbWidth

/-- mapY of src/ScatterChart_GoogleGem_index.tsx lines 468 to 481. -/
def mapY (log10 : ℚ → ℚ) (marginTop vbHeight dMin dMax : ℚ) (scale : Scale) (dataY : ℚ) : ℚ :=
  if dMax = dMin then marginTop + vbHeight
  else
    match scale with
    | .log =>
      if dataY ≤ 0 ∨ dMin ≤ 0 ∨ dMax ≤ 0 then marginTop + vbHeight
      else if log10 dMin = log10 dMax then marginTop + vbHeight
      else marginTop + vbHeight -
        ((log10 dataY - log10 dMin) / (log10 dMax - log10 dMin)) * vbHeight
    | .linear => marginTop + vbHeight - ((dataY - dMin) / (dMax - dMin)) * vbHeight

/-- screen x coordinate of a label anchor in src/unnamed/part_000 line 284:
a linear interpolation applied whatever the configured scale mode is. -/
def screenXP0 (marginLeft plotWidth x0 x1 dataX : ℚ) : ℚ :=
  marginLeft + ((dataX - x0) / (x1 - x0)) * plotWidth

/-- screen y coordinate of a label anchor in src/unnamed/part_000 line 285. -/
def screenYP0 (marginTop plotHeight y0 y1 dataY : ℚ) : ℚ :=
  marginTop + plotHeight - ((dataY - y0) / (y1 - y0)) * plotHeight

/-- log-scale mapping formula asserted by the claim (spec section 4.3). -/
def logMapFormula (log10 : ℚ → ℚ) (origin size lo hi v : ℚ) : ℚ :=
  origin + ((log10 v - log10 lo) / (log10 hi - log10 lo)) * size

/-- concrete rational function agreeing with the real Math.log10 on the
inputs 1, 10 and 100 used by the log-mapping counterexample. -/
def log10c : ℚ → ℚ :=
  fun q => if q = 10 then 1 else if q = 100 then 2 else 0

/-- calculateDensity of src/ScatterChart_GoogleGem_index.tsx lines 78 to
89: count the anchors with squared distance below radius squared, then
subtract one for the point itself when the count is positive. -/
def calculateDensityGG (point : Pt) (allPoints : List Pt) (radius : ℚ) : ℕ :=
  let count := (allPoints.filter (fun p =>
    decide ((p.x - point.x) * (p.x - point.x) + (p.y - point.y) * (p.y - point.y) <
      radius * radius))).length
  if 0 < count then count - 1 else 0

/-- calculateDensity of src/unnamed/part_000 lines 65 to 69.  The source
compares Math.sqrt(dx^2 + dy^2) < radius; over the reals that holds exactly
when the radius is positive and the squared distance is below its square.
No term is subtracted for the point itself. -/
def calculateDensityP0 (point : Pt) (allPoints : List Pt) (radius : ℚ) : ℕ :=
  (allPoints.filter (fun p =>
    decide (0 < radius) &&
    decide ((p.x - point.x) * (p.x - point.x) + (p.y - point.y) * (p.y - point.y) <
      radius * radius))).length

/-- density as worded by the claim: the number of anchors in the set other
than the point itself (one occurrence removed) whose Euclidean distance to
the point is strictly below the radius. -/
def densitySpec (point : Pt) (allPoints : List Pt) (radius : ℚ) : ℕ :=
  ((allPoints.erase point).filter (fun p =>
    decide (0 < radius) &&
    decide ((p.x - point.x) * (p.x - point.x) + (p.y - point.y) * (p.y - point.y) <
      radius * radius))).length

/-- doLabelsOverlap of src/ScatterChart_GoogleGem_index.tsx lines 92 to 99
(x, y are box centers). -/
def doLabelsOverlapGG (a b : LabelPosition) (padding : ℚ) : Bool :=
  !(decide (a.x + a.width / 2 + padding < b.x - b.width / 2) ||
    decide (b.x + b.width / 2 + padding < a.x - a.width / 2) ||
    decide (a.y + a.height / 2 + padding < b.y - b.height / 2) ||
    decide (b.y + b.height / 2 + padding < a.y - a.height / 2))

/-- doLabelsOverlap of src/unnamed/part_000 lines 71 to 78 (x, y are box
top-left corners). -/
def doLabelsOverlapP0 (a b : LabelPosition) (padding : ℚ) : Bool :=
  !(decide (a.x + a.width + padding < b.x) ||
    decide (b.x + b.width + padding < a.x) ||
    decide (a.y + a.height + padding < b.y) ||
    decide (b.y + b.height + padding < a.y))

/-- the twelve candidate offsets of findBestLabelPosition in
src/ScatterChart_GoogleGem_index.tsx lines 114 to 127. -/
def potentialOffsets : List (ℚ × ℚ) :=
  [(0, -15), (15, 0), (0, 15), (-15, 0), (12, -12), (12, 12), (-12, 12), (-12, -12),
   (0, -25), (25, 0), (0, 25), (-25, 0)]

/-- the twelve candidate positions derived from the offsets. -/
def candidatesGG (baseX baseY : ℚ) : List (ℚ × ℚ) :=
  potentialOffsets.map (fun o => (baseX + o.1, baseY + o.2))

/-- candidate label rectangle built inside the GoogleGem loop: center at
the candidate position, width label.length * fontSize * 0.6, height
fontSize + 4. -/
def candidateRectGG (label : String) (fontSize : ℚ) (pos : ℚ × ℚ) : LabelPosition :=
  { id := label, x := pos.1, y := pos.2,
    width := (label.length : ℚ) * fontSize * (3/5), height := fontSize + 4, density := 0 }

/-- findBestLabelPosition of src/ScatterChart_GoogleGem_index.tsx lines 102
to 156: return the first candidate whose rectangle overlaps no existing
label, null when every candidate overlaps one. -/
def findBestLabelPositionGG (baseX baseY : ℚ) (label : String)
    (existingLabels : List LabelPosition) (fontSize padding : ℚ) : Option (ℚ × ℚ) :=
  (candidatesGG baseX baseY).find? (fun pos =>
    !existingLabels.any (fun existing =>
      doLabelsOverlapGG existing (candidateRectGG label fontSize pos) padding))

/-- the twelve candidate positions of findBestLabelPosition in
src/unnamed/part_000 lines 91 to 104. -/
def positionsP0 (baseX baseY : ℚ) : List (ℚ × ℚ) :=
  [(baseX, baseY - 15), (baseX + 15, baseY), (baseX, baseY + 15), (baseX - 15, baseY),
   (baseX + 15, baseY - 15), (baseX + 15, baseY + 15), (baseX - 15, baseY + 15),
   (baseX - 15, baseY - 15), (baseX, baseY - 25), (baseX + 25, baseY), (baseX, baseY + 25),
   (baseX - 25, baseY)]

/-- candidate label rectangle built inside the part_000 loop: top-left
corner at the candidate position minus half the size. -/
def candidateRectP0 (label : String) (fontSize : ℚ) (pos : ℚ × ℚ) : LabelPosition :=
  { id := label, x := pos.1 - (label.length : ℚ) * fontSize * (3/5) / 2,
    y := pos.2 - (fontSize + 4) / 2,
    width := (label.length : ℚ) * fontSize * (3/5), height := fontSize + 4, density := 0 }

/-- findBestLabelPosition of src/unnamed/part_000 lines 80 to 122. -/
def findBestLabelPositionP0 (baseX baseY : ℚ) (label : String)
    (existingLabels : List LabelPosition) (fontSize padding : ℚ) : Option (ℚ × ℚ) :=
  (positionsP0 baseX baseY).find? (fun pos =>
    !existingLabels.any (fun existing =>
      doLabelsOverlapP0 existing (candidateRectP0 label fontSize pos) padding))

/-- per-label output of the GoogleGem rendering step (lines 536 to 583):
the first component states whether the label group (rect and text) is
emitted (always), the second whether the leader line is emitted.  The
source compares Math.sqrt(dx^2 + dy^2) > 5 with showLine fixed to true;
over the reals that holds exactly when the squared displacement of the
final center (x, y) from the anchor (dataX, dataY) exceeds 25. -/
def renderLabelGG (l : SimLabel) : Bool × Bool :=
  (true, decide (25 < (l.x - l.dataX) * (l.x - l.dataX) + (l.y - l.dataY) * (l.y - l.dataY)))

/-- per-label output of the part_000 rendering step (lines 327 to 371):
the label center is the simulated position shifted by the chart margins;
when Math.sqrt(dx^2 + dy^2) < 15 (squared displacement below 225) the
whole label is dropped (the map returns null, filtered out), otherwise the
group is emitted with an unconditional leader line. -/
def renderLabelP0 (marginLeft marginTop : ℚ) (l : SimLabel) : Bool × Bool :=
  let labelCenterX := l.x + marginLeft
  let labelCenterY := l.y + marginTop
  let dx := labelCenterX - l.dataX
  let dy := labelCenterY - l.dataY
  if dx * dx + dy * dy < 225 then (false, false) else (true, true)

/-- zoom operations of both variants (lines 599 to 601 of the GoogleGem
file, 237 to 239 of part_000): handleZoomIn, handleZoomOut and
handleResetZoom, with 1.2 written as 6/5 and 0.5 as 1/2. -/
inductive ZoomOp where
  | zoomIn
  | zoomOut
  | reset
  deriving DecidableEq

/-- one state update of the zoom handlers. -/
def applyZoom (z : ℚ) : ZoomOp → ℚ
  | .zoomIn => min (z * (6/5)) 5
  | .zoomOut => max (z / (6/5)) (1/2)
  | .reset => 1

/-- zoom value after a sequence of handler invocations from the initial
state useState(1). -/
def zoomAfter (ops : List ZoomOp) : ℚ :=
  ops.foldl applyZoom 1

theorem foldl_min_le_init (t : List ℚ) : ∀ a : ℚ, t.foldl min a ≤ a := by
  induction t with
  | nil => intro a; simp
  | cons h tl ih =>
    intro a
    exact le_trans (ih (min a h)) (min_le_left a h)

theorem foldl_min_le_mem (t : List ℚ) : ∀ a v, v ∈ t → t.foldl min a ≤ v := by
  induction t with
  | nil => intro a v hv; cases hv
  | cons h tl ih =>
    intro a v hv
    rcases List.mem_cons.mp hv with rfl | hv2
    · exact le_trans (foldl_min_le_init tl (min a v)) (min_le_right a v)
    · exact ih (min a h) v hv2

theorem foldl_min_mem (t : List ℚ) : ∀ a, t.foldl min a = a ∨ t.foldl min a ∈ t := by
  induction t with
  | nil => intro a; left; rfl
  | cons h tl ih =>
    intro a
    simp only [List.foldl_cons]
    rcases ih (min a h) with heq | hmem
    · rcases le_total a h with hah | hha
      · left; rw [heq, min_eq_left hah]
      · right; rw [heq, min_eq_right hha]; exact List.mem_cons_self h tl
    · right; exact List.mem_cons_of_mem h hmem

theorem init_le_foldl_max (t : List ℚ) : ∀ a : ℚ, a ≤ t.foldl max a := by
  induction t with
  | nil => intro a; simp
  | cons h tl ih =>
    intro a
    exact le_trans (le_max_left a h) (ih (max a h))

theorem mem_le_foldl_max (t : List ℚ) : ∀ a v, v ∈ t → v ≤ t.foldl max a := by
  induction t with
  | nil => intro a v hv; cases hv
  | cons h tl ih =>
    intro a v hv
    rcases List.mem_cons.mp hv with rfl | hv2
    · exact le_trans (le_max_right a v) (init_le_foldl_max tl (max a v))
    · exact ih (max a h) v hv2

theorem foldl_max_mem (t : List ℚ) : ∀ a, t.foldl max a = a ∨ t.foldl max a ∈ t := by
  induction t with
  | nil => intro a; left; rfl
  | cons h tl ih =>
    intro a
    simp only [List.foldl_cons]
    rcases ih (max a h) with heq | hmem
    · rcases le_total a h with hah | hha
      · right; rw [heq, max_eq_right hah]; exact List.mem_cons_self h tl
      · left; rw [heq, max_eq_left hha]
    · right; exact List.mem_cons_of_mem h hmem

theorem listMin_le {l : List ℚ} {v : ℚ} (hv : v ∈ l) : listMin l ≤ v := by
  cases l with
  | nil => cases hv
  | cons h t =>
    rcases List.mem_cons.mp hv with rfl | hm
    · exact foldl_min_le_init t v
    · exact foldl_min_le_mem t h v hm

theorem le_listMax {l : List ℚ} {v : ℚ} (hv : v ∈ l) : v ≤ listMax l := by
  cases l with
  | nil => cases hv
  | cons h t =>
    rcases List.mem_cons.mp hv with rfl | hm
    · exact init_le_foldl_max t v
    · exact mem_le_foldl_max t h v hm

theorem listMin_mem {l : List ℚ} (hl : l ≠ []) : listMin l ∈ l := by
  cases l with
  | nil => exact absurd rfl hl
  | cons h t =>
    show t.foldl min h ∈ h :: t
    rcases foldl_min_mem t h with heq | hm
    · rw [heq]; exact List.mem_cons_self h t
    · exact List.mem_cons_of_mem h hm

theorem listMax_mem {l : List ℚ} (hl : l ≠ []) : listMax l ∈ l := by
  cases l with
  | nil => exact absurd rfl hl
  | cons h t =>
    show t.foldl max h ∈ h :: t
    rcases foldl_max_mem t h with heq | hm
    · rw [heq]; exact List.mem_cons_self h t
    · exact List.mem_cons_of_mem h hm

theorem listMin_all_eq {l : List ℚ} {c : ℚ} (hl : l ≠ []) (h : ∀ a ∈ l, a = c) :
    listMin l = c :=
  h _ (listMin_mem hl)

theorem listMax_all_eq {l : List ℚ} {c : ℚ} (hl : l ≠ []) (h : ∀ a ∈ l, a = c) :
    listMax l = c :=
  h _ (listMax_mem hl)

theorem clamp01 (x : ℚ) : 0 ≤ max 0 (min 1 x) ∧ max 0 (min 1 x) ≤ 1 :=
  ⟨le_max_left 0 _, max_le (by norm_num) (min_le_left 1 x)⟩

theorem ratio01 {mn mx v : ℚ} (h1 : mn ≤ v) (h2 : v ≤ mx) (hne : mx ≠ mn) :
    0 ≤ (v - mn) / (mx - mn) ∧ (v - mn) / (mx - mn) ≤ 1 := by
  have hlt : mn < mx := lt_of_le_of_ne (le_trans h1 h2) (Ne.symm hne)
  have hd : 0 < mx - mn := by linarith
  constructor
  · exact div_nonneg (by linarith) (le_of_lt hd)
  · rw [div_le_one hd]; linarith

theorem filterMap_toFin_map_fin (qs : List ℚ) :
    (qs.map JNum.fin).filterMap JNum.toFin? = qs := by
  induction qs with
  | nil => rfl
  | cons h t ih => simp [JNum.toFin?, ih]

theorem normGG_bounds (log10 : ℚ → ℚ) (values : List JNum) (scale : Scale) :
    ∀ o ∈ normalizeValuesGG log10 values scale, 0 ≤ o ∧ o ≤ 1 := by
  intro o ho
  simp only [normalizeValuesGG] at ho
  split at ho
  · cases ho
  · split at ho
    · obtain ⟨v, -, rfl⟩ := List.mem_map.mp ho
      norm_num
    · split at ho
      · split at ho
        · obtain ⟨v, -, rfl⟩ := List.mem_map.mp ho
          cases v <;> simp only [] <;> first
            | (split_ifs <;> norm_num)
            | norm_num
        · split at ho
          · obtain ⟨v, -, rfl⟩ := List.mem_map.mp ho
            cases v <;> simp only [] <;> first
              | (split_ifs <;> norm_num)
              | norm_num
          · obtain ⟨v, -, rfl⟩ := List.mem_map.mp ho
            cases v with
            | fin q =>
              simp only []
              split_ifs
              · norm_num
              · exact clamp01 _
            | posInf => norm_num
            | negInf => norm_num
            | nan => norm_num
      · split at ho
        · obtain ⟨v, -, rfl⟩ := List.mem_map.mp ho
          split_ifs <;> norm_num
        · obtain ⟨v, -, rfl⟩ := List.mem_map.mp ho
          cases v with
          | fin q => exact clamp01 _
          | posInf => norm_num
          | negInf => norm_num
          | nan => norm_num

theorem normP0_bounds (ln : ℚ → ℚ) (values : List ℚ) (scale : Scale) :
    ∀ o ∈ normalizeValuesP0 ln values scale, 0 ≤ o ∧ o ≤ 1 := by
  intro o ho
  simp only [normalizeValuesP0] at ho
  split at ho
  · cases ho
  · split at ho
    · obtain ⟨v, hv, rfl⟩ := List.mem_map.mp ho
      split_ifs with h
      · norm_num
      · exact ratio01 (listMin_le hv) (le_listMax hv) h
    · obtain ⟨v, hv, rfl⟩ := List.mem_map.mp ho
      split_ifs with h
      · norm_num
      · exact ratio01 (listMin_le hv) (le_listMax hv) h

theorem normGG_const (log10 : ℚ → ℚ) (qs : List ℚ) (c : ℚ) (hne : qs ≠ [])
    (hall : ∀ a ∈ qs, a = c) :
    normalizeValuesGG log10 (qs.map JNum.fin) .linear = qs.map (fun _ => 1/2) ∧
    (0 < c → normalizeValuesGG log10 (qs.map JNum.fin) .log = qs.map (fun _ => 1/2)) ∧
    (c ≤ 0 → normalizeValuesGG log10 (qs.map JNum.fin) .log = qs.map (fun _ => 0)) := by
  have hvne : qs.map JNum.fin ≠ [] := by simpa using hne
  have hfin := filterMap_toFin_map_fin qs
  have hmn := listMin_all_eq hne hall
  have hmx := listMax_all_eq hne hall
  refine ⟨?_, ?_, ?_⟩
  · simp only [normalizeValuesGG, if_neg hvne, hfin, if_neg hne, hmn, hmx, if_pos rfl]
    rw [List.map_map]
    apply List.map_congr_left
    intro a _
    simp [JNum.isFinite]
  · intro hc
    have hpos : qs.filter (fun v => decide (0 < v)) = qs := by
      apply List.filter_eq_self.mpr
      intro a ha
      rw [hall a ha]
      exact decide_eq_true hc
    simp only [normalizeValuesGG, if_neg hvne, hfin, if_neg hne, hpos, hmn, hmx, if_pos rfl]
    rw [List.map_map]
    apply List.map_congr_left
    intro a ha
    have : a = c := hall a ha
    subst this
    simp [hc]
  · intro hc
    have hpos : qs.filter (fun v => decide (0 < v)) = [] := by
      apply List.filter_eq_nil_iff.mpr
      intro a ha
      rw [hall a ha]
      simp
      linarith
    simp only [normalizeValuesGG, if_neg hvne, hfin, if_neg hne, hpos, if_pos rfl]
    rw [List.map_map]
    apply List.map_congr_left
    intro a ha
    have : a = c := hall a ha
    subst this
    have : ¬ (0 : ℚ) < a := by linarith
    simp [this]

theorem normP0_const (ln : ℚ → ℚ) (qs : List ℚ) (c : ℚ) (hne : qs ≠ [])
    (hall : ∀ a ∈ qs, a = c) :
    normalizeValuesP0 ln qs .linear = qs.map (fun _ => 0) ∧
    normalizeValuesP0 ln qs .log = qs.map (fun _ => 0) := by
  have hmn := listMin_all_eq hne hall
  have hmx := listMax_all_eq hne hall
  constructor
  · simp only [normalizeValuesP0, if_neg hne, hmn, hmx, if_pos rfl]
    simp
  · have hlogne : qs.map (fun v => ln (max v 1)) ≠ [] := by simpa using hne
    have hlogall : ∀ a ∈ qs.map (fun v => ln (max v 1)), a = ln (max c 1) := by
      intro a ha
      obtain ⟨v, hv, rfl⟩ := List.mem_map.mp ha
      rw [hall v hv]
    have h1 := listMin_all_eq hlogne hlogall
    have h2 := listMax_all_eq hlogne hlogall
    simp only [normalizeValuesP0, if_neg hne, h1, h2, if_pos rfl]
    simp [Function.comp_def]

/-- C1: for every input list of finite numbers, under either scale mode,
every value returned by normalizeValues lies in [0, 1] (this part holds for
both variants, for the GoogleGem variant even on arbitrary inputs); but
when all inputs are equal the variants differ from the claim: the
GoogleGem variant maps every input to 0.5 under linear scale and, when the
common value is positive, under log scale, while equal non-positive inputs
map to 0 under log scale; the part_000 variant maps every equal input to 0
under both scale modes. -/
theorem normalize_range_and_equal_c1 :
    (∀ (log10 : ℚ → ℚ) (values : List JNum) (scale : Scale),
      ∀ o ∈ normalizeValuesGG log10 values scale, 0 ≤ o ∧ o ≤ 1) ∧
    (∀ (ln : ℚ → ℚ) (values : List ℚ) (scale : Scale),
      ∀ o ∈ normalizeValuesP0 ln values scale, 0 ≤ o ∧ o ≤ 1) ∧
    (∀ (log10 : ℚ → ℚ) (qs : List ℚ) (c : ℚ), qs ≠ [] → (∀ a ∈ qs, a = c) →
      normalizeValuesGG log10 (qs.map JNum.fin) Scale.linear = qs.map (fun _ => 1/2) ∧
      (0 < c → normalizeValuesGG log10 (qs.map JNum.fin) Scale.log = qs.map (fun _ => 1/2)) ∧
      (c ≤ 0 → normalizeValuesGG log10 (qs.map JNum.fin) Scale.log = qs.map (fun _ => 0))) ∧
    (∀ (ln : ℚ → ℚ) (qs : List ℚ) (c : ℚ), qs ≠ [] → (∀ a ∈ qs, a = c) →
      normalizeValuesP0 ln qs Scale.linear = qs.map (fun _ => 0) ∧
      normalizeValuesP0 ln qs Scale.log = qs.map (fun _ => 0)) :=
  ⟨normGG_bounds, normP0_bounds,
   fun log10 qs c hne hall => normGG_const log10 qs c hne hall,
   fun ln qs c hne hall => normP0_const ln qs c hne hall⟩

/-- C1 counterexample: the part_000 normalizeValues maps the equal-valued
finite input list [3, 3] under linear scale to [0, 0], not to [0.5, 0.5]
as the claim requires. -/
theorem normalize_equal_c1_cex :
    normalizeValuesP0 (fun q => q) [3, 3] Scale.linear = [0, 0] ∧
    ([0, 0] : List ℚ) ≠ [1/2, 1/2] := by
  constructor
  · norm_num [normalizeValuesP0, listMin, listMax]
    intro h
    cases h
  · simp

/-- C1 witness: the amended claim applied to the concrete equal-valued
list with common value 2. -/
theorem normalize_range_and_equal_c1_witness :
    normalizeValuesGG (fun q => q) [JNum.fin 2, JNum.fin 2] Scale.linear = [1/2, 1/2] ∧
    normalizeValuesP0 (fun q => q) [2, 2] Scale.linear = [0, 0] := by
  have h := normalize_range_and_equal_c1
  have hall : ∀ a ∈ ([2, 2] : List ℚ), a = 2 := by
    intro a ha
    rcases List.mem_cons.mp ha with rfl | ha2
    · rfl
    · rcases List.mem_cons.mp ha2 with rfl | ha3
      · rfl
      · cases ha3
  constructor
  · have h3 := (h.2.2.1 (fun q => q) [2, 2] 2 (by simp) hall).1
    simpa using h3
  · have h4 := (h.2.2.2 (fun q => q) [2, 2] 2 (by simp) hall).1
    simpa using h4

theorem applyZoom_bounds {z : ℚ} (h1 : 1/2 ≤ z) (h2 : z ≤ 5) (op : ZoomOp) :
    1/2 ≤ applyZoom z op ∧ applyZoom z op ≤ 5 := by
  cases op with
  | zoomIn =>
    constructor
    · apply le_min
      · linarith
      · norm_num
    · exact min_le_right _ _
  | zoomOut =>
    constructor
    · exact le_max_right _ _
    · apply max_le
      · have hq : z / (6/5) = z * (5/6) := by ring
        rw [hq]
        linarith
      · norm_num
  | reset =>
    norm_num [applyZoom]

theorem zoom_inv_foldl (ops : List ZoomOp) : ∀ z : ℚ, 1/2 ≤ z → z ≤ 5 →
    1/2 ≤ ops.foldl applyZoom z ∧ ops.foldl applyZoom z ≤ 5 := by
  induction ops with
  | nil => intro z h1 h2; exact ⟨h1, h2⟩
  | cons op rest ih =>
    intro z h1 h2
    simp only [List.foldl_cons]
    obtain ⟨g1, g2⟩ := applyZoom_bounds h1 h2 op
    exact ih _ g1 g2

/-- C10: starting from the initial zoom value 1, after any finite sequence
of zoom-in (multiply by 1.2, clamped above at 5), zoom-out (divide by 1.2,
clamped below at 0.5) and reset operations, the zoom value lies in
[0.5, 5]. -/
theorem zoom_bounds_c10 (ops : List ZoomOp) :
    1/2 ≤ zoomAfter ops ∧ zoomAfter ops ≤ 5 :=
  zoom_inv_foldl ops 1 (by norm_num) (by norm_num)

/-- C8: in the GoogleGem variant every settled label is drawn and its
leader line is emitted exactly when the squared displacement of the final
center from the anchor exceeds 25 (Euclidean displacement above 5 pixels),
as the claim states; the part_000 variant instead suppresses the whole
label (line, rectangle and text) whenever the squared displacement is
below 225 (displacement below 15 pixels) and always draws the leader line
otherwise. -/
theorem leader_line_c8 :
    (∀ l : SimLabel, (renderLabelGG l).1 = true ∧
      ((renderLabelGG l).2 = true ↔
        25 < (l.x - l.dataX) * (l.x - l.dataX) + (l.y - l.dataY) * (l.y - l.dataY))) ∧
    (∀ (marginLeft marginTop : ℚ) (l : SimLabel),
      ((l.x + marginLeft - l.dataX) * (l.x + marginLeft - l.dataX) +
          (l.y + marginTop - l.dataY) * (l.y + marginTop - l.dataY) < 225 →
        renderLabelP0 marginLeft marginTop l = (false, false)) ∧
      (¬ ((l.x + marginLeft - l.dataX) * (l.x + marginLeft - l.dataX) +
            (l.y + marginTop - l.dataY) * (l.y + marginTop - l.dataY) < 225) →
        renderLabelP0 marginLeft marginTop l = (true, true))) := by
  constructor
  · intro l
    refine ⟨rfl, ?_⟩
    simp [renderLabelGG]
  · intro mL mT l
    constructor
    · intro h
      simp only [renderLabelP0]
      rw [if_pos h]
    · intro h
      simp only [renderLabelP0]
      rw [if_neg h]

/-- C8 counterexample: a part_000 label whose center sits exactly on its
anchor (displacement 0, at or below the 5 pixel threshold, so the claim
requires the label to be drawn without a leader line) is not drawn at all:
the rendering step returns null for it. -/
theorem leader_line_c8_cex :
    renderLabelP0 0 0 ⟨("A"), 0, 0, 10, 14, 0, 0⟩ = (false, false) ∧
    ((false, false) : Bool × Bool).1 ≠ true := by
  constructor
  · simp only [renderLabelP0]
    norm_num
  · simp

/-- C8 witness: the amended claim applied to a concrete GoogleGem label
with squared displacement 100 and a concrete part_000 label with squared
displacement 100. -/
theorem leader_line_c8_witness :
    (renderLabelGG ⟨("A"), 10, 0, 10, 14, 0, 0⟩).1 = true ∧
    ((renderLabelGG ⟨("A"), 10, 0, 10, 14, 0, 0⟩).2 = true ↔
      25 < ((10 : ℚ) - 0) * (10 - 0) + (0 - 0) * (0 - 0)) ∧
    renderLabelP0 0 0 ⟨("A"), 10, 0, 10, 14, 0, 0⟩ = (false, false) := by
  refine ⟨(leader_line_c8.1 _).1, (leader_line_c8.1 _).2, ?_⟩
  exact (leader_line_c8.2 0 0 ⟨("A"), 10, 0, 10, 14, 0, 0⟩).1 (by norm_num)

/-- C2: the GoogleGem coordinate mapper mapX under log scale returns
origin + (log10 v - log10 low) / (log10 high - log10 low) * size whenever
the value and both domain ends are positive and the domain is not
degenerate, and fails closed to the plot origin for every value at or
below 0; the part_000 label mapping, by contrast, applies the linear
interpolation formula whatever the configured scale mode is. -/
theorem map_log_c2 :
    (∀ (log10 : ℚ → ℚ) (marginLeft vbWidth dMin dMax dataX : ℚ),
      0 < dataX → 0 < dMin → 0 < dMax → dMax ≠ dMin → log10 dMin ≠ log10 dMax →
      mapX log10 marginLeft vbWidth dMin dMax Scale.log dataX =
        logMapFormula log10 marginLeft vbWidth dMin dMax dataX) ∧
    (∀ (log10 : ℚ → ℚ) (marginLeft vbWidth dMin dMax dataX : ℚ), dataX ≤ 0 →
      mapX log10 marginLeft vbWidth dMin dMax Scale.log dataX = marginLeft) ∧
    (∀ (marginLeft plotWidth x0 x1 dataX : ℚ),
      screenXP0 marginLeft plotWidth x0 x1 dataX =
        marginLeft + ((dataX - x0) / (x1 - x0)) * plotWidth) := by
  refine ⟨?_, ?_, ?_⟩
  · intro log10 mL w lo hi v hv hlo hhi hne hlne
    have hguard : ¬ (v ≤ 0 ∨ lo ≤ 0 ∨ hi ≤ 0) := by
      push_neg
      exact ⟨hv, hlo, hhi⟩
    simp only [mapX, logMapFormula]
    rw [if_neg hne, if_neg hguard, if_neg hlne]
  · intro log10 mL w lo hi v hv
    simp only [mapX]
    by_cases h : hi = lo
    · rw [if_pos h]
    · rw [if_neg h, if_pos (Or.inl hv)]
  · intro mL w x0 x1 v
    rfl

/-- C2 counterexample: take the log-scale domain [1, 100], origin 0 and
size 100, and the in-domain value 10.  With a function taking the true
base-10 logarithm values on 1, 10 and 100, the claim requires the mapped
coordinate 50 (half way, since log10 10 is the midpoint of log10 1 and
log10 100), but the part_000 screen mapping applied under log scale
returns the linear interpolation 100/11. -/
theorem map_log_c2_cex :
    screenXP0 0 100 1 100 10 = 100/11 ∧
    logMapFormula log10c 0 100 1 100 10 = 50 ∧
    (100/11 : ℚ) ≠ 50 := by
  have h10 : log10c 10 = 1 := by
    simp [log10c]
  have h1 : log10c 1 = 0 := by
    simp only [log10c]
    rw [if_neg (by norm_num), if_neg (by norm_num)]
  have h100 : log10c 100 = 2 := by
    simp only [log10c]
    rw [if_neg (by norm_num)]
    simp
  refine ⟨?_, ?_, by norm_num⟩
  · simp only [screenXP0]
    norm_num
  · simp only [logMapFormula, h10, h1, h100]
    norm_num

/-- C2 witness: the amended claim applied to concrete inputs, with the
identity function standing in for log10 (any function is admissible for
the formula correspondence). -/
theorem map_log_c2_witness :
    mapX (fun q => q) 0 100 1 10 Scale.log 3 = logMapFormula (fun q => q) 0 100 1 10 3 ∧
    mapX (fun q => q) 0 100 1 10 Scale.log (-1) = 0 ∧
    screenXP0 0 100 1 10 3 = 0 + ((3 - 1) / (10 - 1)) * 100 :=
  ⟨map_log_c2.1 (fun q => q) 0 100 1 10 3 (by norm_num) (by norm_num) (by norm_num)
      (by norm_num) (by norm_num),
   map_log_c2.2.1 (fun q => q) 0 100 1 10 (-1) (by norm_num),
   map_log_c2.2.2 0 100 1 10 3⟩

theorem ratio_lt_ratio {lo hi v1 v2 : ℚ} (hd : lo < hi) (h12 : v1 < v2) :
    (v1 - lo) / (hi - lo) < (v2 - lo) / (hi - lo) := by
  have hpos : 0 < hi - lo := by linarith
  exact (div_lt_div_iff_of_pos_right hpos).mpr (by linarith)

/-- C7: on a valid domain and positive plot size, the x mappings of both
variants are strictly increasing in the data value while the y mappings
are strictly decreasing (sign-flipped), under linear scale and, for the
GoogleGem mapper with any strictly monotone log10, under log scale. -/
theorem axis_flip_c7 :
    (∀ (log10 : ℚ → ℚ) (mL w lo hi v1 v2 : ℚ), lo < hi → 0 < w →
      lo ≤ v1 → v1 < v2 → v2 ≤ hi →
      mapX log10 mL w lo hi Scale.linear v1 < mapX log10 mL w lo hi Scale.linear v2) ∧
    (∀ (log10 : ℚ → ℚ) (mT hgt lo hi v1 v2 : ℚ), lo < hi → 0 < hgt →
      lo ≤ v1 → v1 < v2 → v2 ≤ hi →
      mapY log10 mT hgt lo hi Scale.linear v2 < mapY log10 mT hgt lo hi Scale.linear v1) ∧
    (∀ (log10 : ℚ → ℚ) (mL w lo hi v1 v2 : ℚ),
      (∀ a b : ℚ, 0 < a → a < b → log10 a < log10 b) →
      0 < lo → lo < hi → 0 < w → lo ≤ v1 → v1 < v2 → v2 ≤ hi →
      mapX log10 mL w lo hi Scale.log v1 < mapX log10 mL w lo hi Scale.log v2) ∧
    (∀ (log10 : ℚ → ℚ) (mT hgt lo hi v1 v2 : ℚ),
      (∀ a b : ℚ, 0 < a → a < b → log10 a < log10 b) →
      0 < lo → lo < hi → 0 < hgt → lo ≤ v1 → v1 < v2 → v2 ≤ hi →
      mapY log10 mT hgt lo hi Scale.log v2 < mapY log10 mT hgt lo hi Scale.log v1) ∧
    (∀ (mL w x0 x1 v1 v2 : ℚ), x0 < x1 → 0 < w → v1 < v2 →
      screenXP0 mL w x0 x1 v1 < screenXP0 mL w x0 x1 v2) ∧
    (∀ (mT ph y0 y1 v1 v2 : ℚ), y0 < y1 → 0 < ph → v1 < v2 →
      screenYP0 mT ph y0 y1 v2 < screenYP0 mT ph y0 y1 v1) := by
  refine ⟨?_, ?_, ?_, ?_, ?_, ?_⟩
  · intro log10 mL w lo hi v1 v2 hd hw _ h12 _
    simp only [mapX]
    rw [if_neg (ne_of_gt hd), if_neg (ne_of_gt hd)]
    have := mul_lt_mul_of_pos_right (ratio_lt_ratio hd h12) hw
    linarith
  · intro log10 mT hgt lo hi v1 v2 hd hh _ h12 _
    simp only [mapY]
    rw [if_neg (ne_of_gt hd), if_neg (ne_of_gt hd)]
    have := mul_lt_mul_of_pos_right (ratio_lt_ratio hd h12) hh
    linarith
  · intro log10 mL w lo hi v1 v2 hmono hlo hd hw hv1 h12 hv2
    have h1p : 0 < v1 := lt_of_lt_of_le hlo hv1
    have h2p : 0 < v2 := lt_trans h1p h12
    have hlog : log10 lo < log10 hi := hmono lo hi hlo hd
    have hlog12 : log10 v1 < log10 v2 := hmono v1 v2 h1p h12
    have hg1 : ¬ (v1 ≤ 0 ∨ lo ≤ 0 ∨ hi ≤ 0) := by
      push_neg
      exact ⟨h1p, hlo, lt_trans hlo hd⟩
    have hg2 : ¬ (v2 ≤ 0 ∨ lo ≤ 0 ∨ hi ≤ 0) := by
      push_neg
      exact ⟨h2p, hlo, lt_trans hlo hd⟩
    simp only [mapX]
    rw [if_neg (ne_of_gt hd), if_neg (ne_of_gt hd), if_neg hg1, if_neg hg2,
      if_neg (ne_of_lt hlog), if_neg (ne_of_lt hlog)]
    have := mul_lt_mul_of_pos_right (ratio_lt_ratio hlog hlog12) hw
    linarith
  · intro log10 mT hgt lo hi v1 v2 hmono hlo hd hh hv1 h12 hv2
    have h1p : 0 < v1 := lt_of_lt_of_le hlo hv1
    have h2p : 0 < v2 := lt_trans h1p h12
    have hlog : log10 lo < log10 hi := hmono lo hi hlo hd
    have hlog12 : log10 v1 < log10 v2 := hmono v1 v2 h1p h12
    have hg1 : ¬ (v1 ≤ 0 ∨ lo ≤ 0 ∨ hi ≤ 0) := by
      push_neg
      exact ⟨h1p, hlo, lt_trans hlo hd⟩
    have hg2 : ¬ (v2 ≤ 0 ∨ lo ≤ 0 ∨ hi ≤ 0) := by
      push_neg
      exact ⟨h2p, hlo, lt_trans hlo hd⟩
    simp only [mapY]
    rw [if_neg (ne_of_gt hd), if_neg (ne_of_gt hd), if_neg hg2, if_neg hg1,
      if_neg (ne_of_lt hlog), if_neg (ne_of_lt hlog)]
    have := mul_lt_mul_of_pos_right (ratio_lt_ratio hlog hlog12) hh
    linarith
  · intro mL w x0 x1 v1 v2 hd hw h12
    simp only [screenXP0]
    have := mul_lt_mul_of_pos_right (ratio_lt_ratio hd h12) hw
    linarith
  · intro mT ph y0 y1 v1 v2 hd hp h12
    simp only [screenYP0]
    have := mul_lt_mul_of_pos_right (ratio_lt_ratio hd h12) hp
    linarith

/-- C7 witness: the claim applied to the concrete domain [1, 10], plot
size 100 and values 2 < 3, with the identity function (strictly monotone)
standing in for log10. -/
theorem axis_flip_c7_witness :
    mapX (fun q => q) 0 100 1 10 Scale.linear 2 < mapX (fun q => q) 0 100 1 10 Scale.linear 3 ∧
    mapY (fun q => q) 0 100 1 10 Scale.linear 3 < mapY (fun q => q) 0 100 1 10 Scale.linear 2 ∧
    mapX (fun q => q) 0 100 1 10 Scale.log 2 < mapX (fun q => q) 0 100 1 10 Scale.log 3 ∧
    mapY (fun q => q) 0 100 1 10 Scale.log 3 < mapY (fun q => q) 0 100 1 10 Scale.log 2 ∧
    screenXP0 0 100 1 10 2 < screenXP0 0 100 1 10 3 ∧
    screenYP0 0 100 1 10 3 < screenYP0 0 100 1 10 2 :=
  ⟨axis_flip_c7.1 (fun q => q) 0 100 1 10 2 3 (by norm_num) (by norm_num) (by norm_num)
      (by norm_num) (by norm_num),
   axis_flip_c7.2.1 (fun q => q) 0 100 1 10 2 3 (by norm_num) (by norm_num) (by norm_num)
      (by norm_num) (by norm_num),
   axis_flip_c7.2.2.1 (fun q => q) 0 100 1 10 2 3 (fun a b _ hab => hab) (by norm_num)
      (by norm_num) (by norm_num) (by norm_num) (by norm_num) (by norm_num),
   axis_flip_c7.2.2.2.1 (fun q => q) 0 100 1 10 2 3 (fun a b _ hab => hab) (by norm_num)
      (by norm_num) (by norm_num) (by norm_num) (by norm_num) (by norm_num),
   axis_flip_c7.2.2.2.2.1 0 100 1 10 2 3 (by norm_num) (by norm_num) (by norm_num),
   axis_flip_c7.2.2.2.2.2 0 100 1 10 2 3 (by norm_num) (by norm_num) (by norm_num)⟩

/-- C4: the GoogleGem domain calculator returns the auto sentinel for an
empty input under either scale and for a log-scale input without positive
values, and returns the multiplicative bounds min/1.5 and max*1.5 over the
positive values otherwise; the part_000 domain calculator, by contrast,
returns the fabricated numeric domain (0, 1) for an empty input. -/
theorem domain_sentinel_c4 :
    (∀ scale : Scale, getDomainGG [] scale = Domain.auto) ∧
    (∀ values : List JNum,
      (values.filterMap JNum.toFin?).filter (fun v => decide (0 < v)) = [] →
      getDomainGG values Scale.log = Domain.auto) ∧
    (∀ values : List JNum,
      (values.filterMap JNum.toFin?).filter (fun v => decide (0 < v)) ≠ [] →
      getDomainGG values Scale.log =
        Domain.numeric
          (listMin ((values.filterMap JNum.toFin?).filter (fun v => decide (0 < v))) / (3/2))
          (listMax ((values.filterMap JNum.toFin?).filter (fun v => decide (0 < v))) * (3/2))) ∧
    (∀ (ln pow10 : ℚ → ℚ) (scale : Scale), getDomainP0 ln pow10 [] scale = (0, 1)) := by
  refine ⟨?_, ?_, ?_, ?_⟩
  · intro scale
    rfl
  · intro values hp
    simp only [getDomainGG]
    by_cases hf : values.filterMap JNum.toFin? = []
    · rw [if_pos hf]
    · rw [if_neg hf, if_pos hp]
  · intro values hp
    have hfne : values.filterMap JNum.toFin? ≠ [] := by
      intro h
      apply hp
      rw [h]
      rfl
    have hminpos :
        0 < listMin ((values.filterMap JNum.toFin?).filter (fun v => decide (0 < v))) := by
      have hmem := listMin_mem hp
      exact of_decide_eq_true (List.mem_filter.mp hmem).2
    simp only [getDomainGG]
    rw [if_neg hfne, if_neg hp, if_pos (div_pos hminpos (by norm_num))]
  · intro ln pow10 scale
    rfl

/-- C4 counterexample: on the empty input the part_000 domain calculator
returns the numeric pair (0, 1) where the claim requires an explicit auto
sentinel (which the GoogleGem variant does return). -/
theorem domain_sentinel_c4_cex :
    getDomainP0 (fun q => q) (fun q => q) [] Scale.linear = (0, 1) ∧
    getDomainGG [] Scale.linear = Domain.auto :=
  ⟨rfl, rfl⟩

/-- C4 witness: the amended claim applied to the singleton positive input
4, giving the multiplicative bounds 4/1.5 = 8/3 and 4*1.5 = 6. -/
theorem domain_sentinel_c4_witness :
    ([JNum.fin 4].filterMap JNum.toFin?).filter (fun v => decide (0 < v)) ≠ [] ∧
    getDomainGG [JNum.fin 4] Scale.log = Domain.numeric (8/3) 6 := by
  have hp : ([JNum.fin 4].filterMap JNum.toFin?).filter (fun v => decide (0 < v)) = [4] := by
    norm_num [JNum.toFin?, List.filterMap_cons, List.filter_cons]
  constructor
  · rw [hp]
    simp
  · have h := domain_sentinel_c4.2.2.1 [JNum.fin 4] (by rw [hp]; simp)
    rw [hp] at h
    norm_num [listMin, listMax] at h
    exact h

/-- C5: under linear scale the GoogleGem domain calculator pads by exactly
0.1*(max-min) when min < max, and in the degenerate case min = max pads by
0.1*abs(min) unless that quantity is 0, in which case by 1 (a JavaScript
falsy fallback, not the claimed max(0.1*abs(min), 1)); the part_000
variant pads by 0.1*(max-min) with the fixed fallback 0.1 when that
product is 0. -/
theorem domain_linear_c5 :
    (∀ (values : List JNum) (mn mx : ℚ),
      values.filterMap JNum.toFin? ≠ [] →
      listMin (values.filterMap JNum.toFin?) = mn →
      listMax (values.filterMap JNum.toFin?) = mx →
      (mn ≠ mx →
        getDomainGG values Scale.linear =
          Domain.numeric (mn - (mx - mn) * (1/10)) (mx + (mx - mn) * (1/10))) ∧
      (mn = mx →
        getDomainGG values Scale.linear =
          Domain.numeric (mn - (if |mn * (1/10)| = 0 then 1 else |mn * (1/10)|))
            (mn + (if |mn * (1/10)| = 0 then 1 else |mn * (1/10)|)))) ∧
    (∀ (ln pow10 : ℚ → ℚ) (values : List ℚ) (mn mx : ℚ),
      values ≠ [] → listMin values = mn → listMax values = mx →
      getDomainP0 ln pow10 values Scale.linear =
        (mn - (if (mx - mn) * (1/10) = 0 then 1/10 else (mx - mn) * (1/10)),
         mx + (if (mx - mn) * (1/10) = 0 then 1/10 else (mx - mn) * (1/10)))) := by
  constructor
  · intro values mn mx hfne hmn hmx
    subst hmn
    subst hmx
    constructor
    · intro hne
      simp only [getDomainGG]
      rw [if_neg hfne, if_neg hne]
    · intro heq
      simp only [getDomainGG]
      rw [if_neg hfne, if_pos heq]
  · intro ln pow10 values mn mx hne hmn hmx
    subst hmn
    subst hmx
    simp only [getDomainP0]
    rw [if_neg hne]

/-- C5 counterexample: on the degenerate singleton input 2 (min = max = 2)
the claim requires pad = max(0.1*2, 1) = 1 and hence the domain [1, 3],
but the GoogleGem calculator pads by 0.1*2 = 0.2 and returns
[1.8, 2.2]. -/
theorem domain_linear_c5_cex :
    getDomainGG [JNum.fin 2] Scale.linear = Domain.numeric (9/5) (11/5) ∧
    Domain.numeric (9/5) (11/5) ≠ Domain.numeric 1 3 := by
  constructor
  · have hfm : [JNum.fin 2].filterMap JNum.toFin? = [2] := by
      norm_num [JNum.toFin?, List.filterMap_cons]
    simp only [getDomainGG, hfm]
    norm_num [listMin, listMax]
    constructor <;> rw [abs_of_pos (by norm_num : (0:ℚ) < 1/5)] <;> norm_num
  · intro h
    injection h with h1 h2
    norm_num at h1

/-- C5 witness: the amended claim applied to the input list with minimum 1
and maximum 3, padded by 0.1*(3-1) = 0.2 on each side. -/
theorem domain_linear_c5_witness :
    [JNum.fin 1, JNum.fin 3].filterMap JNum.toFin? ≠ [] ∧
    getDomainGG [JNum.fin 1, JNum.fin 3] Scale.linear = Domain.numeric (4/5) (16/5) := by
  have hfm : [JNum.fin 1, JNum.fin 3].filterMap JNum.toFin? = [1, 3] := by
    norm_num [JNum.toFin?, List.filterMap_cons]
  constructor
  · rw [hfm]
    simp
  · have h := (domain_linear_c5.1 [JNum.fin 1, JNum.fin 3] 1 3 (by rw [hfm]; simp)
      (by rw [hfm]; norm_num [listMin, min_def])
      (by rw [hfm]; norm_num [listMax, max_def])).1 (by norm_num)
    norm_num at h
    exact h

theorem length_filter_erase {p : Pt → Bool} {s : List Pt} {a : Pt}
    (ha : a ∈ s) (hpa : p a = true) :
    (s.filter p).length = ((s.erase a).filter p).length + 1 := by
  have hperm : List.Perm s (a :: s.erase a) := List.perm_cons_erase ha
  rw [(hperm.filter p).length_eq, List.filter_cons_of_pos hpa]
  simp [Nat.add_comm]

/-- C6: provided the query point is one of the anchors and the radius is
nonnegative, the GoogleGem calculateDensity equals the number of anchors
other than the point itself (one occurrence removed) whose Euclidean
distance to it is strictly below the radius, as the claim states; the
part_000 variant does not subtract the point itself and so exceeds that
count by one whenever the radius is positive. -/
theorem density_count_c6 (point : Pt) (allPoints : List Pt) (radius : ℚ)
    (hmem : point ∈ allPoints) (hr : 0 ≤ radius) :
    calculateDensityGG point allPoints radius = densitySpec point allPoints radius := by
  rcases lt_or_eq_of_le hr with hpos | heq
  · have hself : (fun p : Pt =>
        decide ((p.x - point.x) * (p.x - point.x) + (p.y - point.y) * (p.y - point.y) <
          radius * radius)) point = true := by
      simp only [decide_eq_true_eq]
      have : (point.x - point.x) * (point.x - point.x) +
          (point.y - point.y) * (point.y - point.y) = 0 := by ring
      rw [this]
      exact mul_pos hpos hpos
    have hfeq : ∀ l : List Pt,
        l.filter (fun p =>
          decide (0 < radius) &&
          decide ((p.x - point.x) * (p.x - point.x) + (p.y - point.y) * (p.y - point.y) <
            radius * radius)) =
        l.filter (fun p =>
          decide ((p.x - point.x) * (p.x - point.x) + (p.y - point.y) * (p.y - point.y) <
            radius * radius)) := by
      intro l
      apply List.filter_congr
      intro p _
      rw [decide_eq_true hpos, Bool.true_and]
    simp only [calculateDensityGG, densitySpec]
    rw [hfeq, length_filter_erase hmem hself]
    simp
  · have hfalse : ∀ (l : List Pt) (q : Pt),
        l.filter (fun p : Pt =>
          decide ((p.x - q.x) * (p.x - q.x) + (p.y - q.y) * (p.y - q.y) <
            radius * radius)) = [] := by
      intro l q
      apply List.filter_eq_nil_iff.mpr
      intro p _
      simp only [decide_eq_true_eq]
      rw [← heq]
      intro hlt
      have h1 : 0 ≤ (p.x - q.x) * (p.x - q.x) := mul_self_nonneg _
      have h2 : 0 ≤ (p.y - q.y) * (p.y - q.y) := mul_self_nonneg _
      nlinarith
    have hfalse2 : ∀ l : List Pt,
        l.filter (fun p : Pt =>
          decide (0 < radius) &&
          decide ((p.x - point.x) * (p.x - point.x) + (p.y - point.y) * (p.y - point.y) <
            radius * radius)) = [] := by
      intro l
      apply List.filter_eq_nil_iff.mpr
      intro p _
      rw [← heq]
      simp
    simp only [calculateDensityGG, densitySpec]
    rw [hfalse, hfalse2]
    simp

/-- C6 counterexample: the part_000 calculateDensity counts the point
itself, reporting density 1 for a lone anchor with radius 1 where the
claim requires 0; and the GoogleGem variant subtracts one even when the
query point is not an element of the anchor set, reporting 0 where the
claim requires 1. -/
theorem density_count_c6_cex :
    calculateDensityP0 ⟨0, 0⟩ [⟨0, 0⟩] 1 = 1 ∧
    densitySpec ⟨0, 0⟩ [⟨0, 0⟩] 1 = 0 ∧
    calculateDensityGG ⟨0, 0⟩ [⟨1/2, 0⟩] 1 = 0 ∧
    densitySpec ⟨0, 0⟩ [⟨1/2, 0⟩] 1 = 1 := by
  have herase1 : ([⟨0, 0⟩] : List Pt).erase ⟨0, 0⟩ = [] := List.erase_cons_head _ _
  have hnotmem : (⟨0, 0⟩ : Pt) ∉ ([⟨1/2, 0⟩] : List Pt) := by
    intro h
    rcases List.mem_singleton.mp h with heq
    have := congrArg Pt.x heq
    norm_num at this
  have herase2 : ([⟨1/2, 0⟩] : List Pt).erase ⟨0, 0⟩ = [⟨1/2, 0⟩] :=
    List.erase_of_not_mem hnotmem
  refine ⟨?_, ?_, ?_, ?_⟩
  · simp only [calculateDensityP0]
    norm_num [List.filter_cons]
  · simp only [densitySpec, herase1]
    rfl
  · simp only [calculateDensityGG]
    norm_num [List.filter_cons]
  · simp only [densitySpec, herase2]
    norm_num [List.filter_cons]

/-- C6 witness: the amended claim applied to a two-anchor set containing
the query point, radius 2. -/
theorem density_count_c6_witness :
    (⟨0, 0⟩ : Pt) ∈ ([⟨0, 0⟩, ⟨1, 0⟩] : List Pt) ∧ (0 : ℚ) ≤ 2 ∧
    calculateDensityGG ⟨0, 0⟩ [⟨0, 0⟩, ⟨1, 0⟩] 2 = densitySpec ⟨0, 0⟩ [⟨0, 0⟩, ⟨1, 0⟩] 2 :=
  ⟨List.mem_cons_self _ _, by norm_num,
   density_count_c6 ⟨0, 0⟩ [⟨0, 0⟩, ⟨1, 0⟩] 2 (List.mem_cons_self _ _) (by norm_num)⟩

theorem attachNZ_map_fst (dflt : ℚ) :
    ∀ (ps : List RawPoint) (ws : List ℚ), (attachNZ dflt ps ws).map Prod.fst = ps := by
  intro ps
  induction ps with
  | nil => intro ws; rfl
  | cons p rest ih =>
    intro ws
    cases ws with
    | nil => simp [attachNZ, ih]
    | cons w rest2 => simp [attachNZ, ih]

theorem axis_ok_iff (s : Scale) (o : Option JNum) :
    (o.isSome && jIsFinite o && (decide (s = Scale.linear) || jGtZero o)) = true ↔
      ∃ q : ℚ, o = some (JNum.fin q) ∧ (s = Scale.log → 0 < q) := by
  constructor
  · intro h
    simp only [Bool.and_eq_true, Bool.or_eq_true, decide_eq_true_eq] at h
    obtain ⟨⟨hsome, hfin⟩, hscale⟩ := h
    cases o with
    | none => cases hsome
    | some v =>
      cases v with
      | fin q =>
        refine ⟨q, rfl, ?_⟩
        intro hlog
        rcases hscale with hlin | hgt
        · rw [hlin] at hlog
          cases hlog
        · exact of_decide_eq_true hgt
      | posInf => cases hfin
      | negInf => cases hfin
      | nan => cases hfin
  · rintro ⟨q, rfl, hq⟩
    simp only [Bool.and_eq_true, Bool.or_eq_true, decide_eq_true_eq]
    refine ⟨⟨rfl, rfl⟩, ?_⟩
    cases s with
    | linear => exact Or.inl rfl
    | log => exact Or.inr (decide_eq_true (hq rfl))

theorem keepGG_iff (xs ys zs : Scale) (p : RawPoint) :
    keepGG xs ys zs p = true ↔
      ∃ qx qy qz : ℚ, p.x = some (JNum.fin qx) ∧ p.y = some (JNum.fin qy) ∧
        p.z = some (JNum.fin qz) ∧ (xs = Scale.log → 0 < qx) ∧ (ys = Scale.log → 0 < qy) ∧
        (zs = Scale.log → 0 < qz) := by
  have hx := axis_ok_iff xs p.x
  have hy := axis_ok_iff ys p.y
  have hz := axis_ok_iff zs p.z
  constructor
  · intro h
    simp only [keepGG, Bool.and_eq_true] at h
    obtain ⟨⟨⟨⟨⟨⟨⟨⟨h1, h2⟩, h3⟩, h4⟩, h5⟩, h6⟩, h7⟩, h8⟩, h9⟩ := h
    obtain ⟨qx, hqx, hsx⟩ := hx.mp (by simp [h1, h4, h7])
    obtain ⟨qy, hqy, hsy⟩ := hy.mp (by simp [h2, h5, h8])
    obtain ⟨qz, hqz, hsz⟩ := hz.mp (by simp [h3, h6, h9])
    exact ⟨qx, qy, qz, hqx, hqy, hqz, hsx, hsy, hsz⟩
  · rintro ⟨qx, qy, qz, hqx, hqy, hqz, hsx, hsy, hsz⟩
    have gx := hx.mpr ⟨qx, hqx, hsx⟩
    have gy := hy.mpr ⟨qy, hqy, hsy⟩
    have gz := hz.mpr ⟨qz, hqz, hsz⟩
    simp only [Bool.and_eq_true] at gx gy gz
    simp only [keepGG, Bool.and_eq_true]
    exact ⟨⟨⟨⟨⟨⟨⟨⟨gx.1.1, gy.1.1⟩, gz.1.1⟩, gx.1.2⟩, gy.1.2⟩, gz.1.2⟩, gx.2⟩, gy.2⟩, gz.2⟩

/-- C3: a record is included in the GoogleGem transformedData exactly when
it occurs in the input and each of its x, y, z fields is a non-null finite
number that is strictly positive whenever the corresponding axis uses log
scale, as the claim states; the part_000 variant omits the finiteness
test, so a record with a non-finite coordinate passes its filter. -/
theorem point_inclusion_c3 (log10 : ℚ → ℚ) (xs ys zs : Scale) (points : List RawPoint)
    (r : RawPoint) :
    r ∈ (transformedDataGG log10 xs ys zs points).map Prod.fst ↔
      r ∈ points ∧ ∃ qx qy qz : ℚ, r.x = some (JNum.fin qx) ∧ r.y = some (JNum.fin qy) ∧
        r.z = some (JNum.fin qz) ∧ (xs = Scale.log → 0 < qx) ∧ (ys = Scale.log → 0 < qy) ∧
        (zs = Scale.log → 0 < qz) := by
  simp only [transformedDataGG]
  rw [attachNZ_map_fst, List.mem_filter, keepGG_iff]

/-- C3 counterexample: a record whose x value is the non-finite Infinity
(with finite y and z and all axes linear) passes the part_000
transformedData filter, though the claim requires any record with a
non-finite coordinate to be dropped. -/
theorem point_inclusion_c3_cex :
    (⟨some JNum.posInf, some (JNum.fin 1), some (JNum.fin 1)⟩ : RawPoint) ∈
      validPointsP0 Scale.linear Scale.linear Scale.linear
        [⟨some JNum.posInf, some (JNum.fin 1), some (JNum.fin 1)⟩] ∧
    jIsFinite (some JNum.posInf) = false := by
  constructor
  · apply List.mem_filter.mpr
    refine ⟨List.mem_cons_self _ _, ?_⟩
    rfl
  · rfl

/-- C3 witness: the claim applied to a concrete all-finite record under
linear scales, which is included. -/
theorem point_inclusion_c3_witness :
    (⟨some (JNum.fin 1), some (JNum.fin 2), some (JNum.fin 3)⟩ : RawPoint) ∈
      (transformedDataGG (fun q => q) Scale.linear Scale.linear Scale.linear
        [⟨some (JNum.fin 1), some (JNum.fin 2), some (JNum.fin 3)⟩]).map Prod.fst :=
  (point_inclusion_c3 (fun q => q) Scale.linear Scale.linear Scale.linear _ _).mpr
    ⟨List.mem_cons_self _ _, 1, 2, 3, rfl, rfl, rfl,
     by refine ⟨?_, ?_, ?_⟩ <;> (intro h; cases h)⟩

/-- C9: whenever findBestLabelPosition (either variant) returns a non-null
position, that position is one of the twelve candidates and its candidate
label rectangle overlaps none of the existing label rectangles under the
given padding; and whenever every candidate position overlaps some
existing label, it returns null. -/
theorem find_position_c9 (baseX baseY : ℚ) (label : String)
    (existingLabels : List LabelPosition) (fontSize padding : ℚ) :
    (∀ pos, findBestLabelPositionGG baseX baseY label existingLabels fontSize padding = some pos →
      pos ∈ candidatesGG baseX baseY ∧
      ∀ e ∈ existingLabels,
        doLabelsOverlapGG e (candidateRectGG label fontSize pos) padding = false) ∧
    ((∀ pos ∈ candidatesGG baseX baseY, ∃ e ∈ existingLabels,
        doLabelsOverlapGG e (candidateRectGG label fontSize pos) padding = true) →
      findBestLabelPositionGG baseX baseY label existingLabels fontSize padding = none) ∧
    (∀ pos, findBestLabelPositionP0 baseX baseY label existingLabels fontSize padding = some pos →
      pos ∈ positionsP0 baseX baseY ∧
      ∀ e ∈ existingLabels,
        doLabelsOverlapP0 e (candidateRectP0 label fontSize pos) padding = false) ∧
    ((∀ pos ∈ positionsP0 baseX baseY, ∃ e ∈ existingLabels,
        doLabelsOverlapP0 e (candidateRectP0 label fontSize pos) padding = true) →
      findBestLabelPositionP0 baseX baseY label existingLabels fontSize padding = none) := by
  refine ⟨?_, ?_, ?_, ?_⟩
  · intro pos h
    refine ⟨List.mem_of_find?_eq_some h, ?_⟩
    have hp := List.find?_some h
    have hfalse : existingLabels.any (fun existing =>
        doLabelsOverlapGG existing (candidateRectGG label fontSize pos) padding) = false := by
      simpa using hp
    intro e he
    exact Bool.eq_false_iff.mpr (List.any_eq_false.mp hfalse e he)
  · intro hall
    apply List.find?_eq_none.mpr
    intro pos hpos
    obtain ⟨e, he, hov⟩ := hall pos hpos
    intro hcontra
    simp only [Bool.not_eq_true'] at hcontra
    exact (List.any_eq_false.mp hcontra e he) hov
  · intro pos h
    refine ⟨List.mem_of_find?_eq_some h, ?_⟩
    have hp := List.find?_some h
    have hfalse : existingLabels.any (fun existing =>
        doLabelsOverlapP0 existing (candidateRectP0 label fontSize pos) padding) = false := by
      simpa using hp
    intro e he
    exact Bool.eq_false_iff.mpr (List.any_eq_false.mp hfalse e he)
  · intro hall
    apply List.find?_eq_none.mpr
    intro pos hpos
    obtain ⟨e, he, hov⟩ := hall pos hpos
    intro hcontra
    simp only [Bool.not_eq_true'] at hcontra
    exact (List.any_eq_false.mp hcontra e he) hov

/-- C9 witness: with no existing labels both searches return the first
candidate, which overlaps nothing; with a single gigantic existing label
overlapping every candidate, both searches return null. -/
theorem find_position_c9_witness :
    ((0 : ℚ), (-15 : ℚ)) ∈ candidatesGG 0 0 ∧
    (∀ e ∈ ([] : List LabelPosition),
      doLabelsOverlapGG e (candidateRectGG ("") 10 (0, -15)) 5 = false) ∧
    findBestLabelPositionGG 0 0 ("") [⟨("B"), 0, 0, 100000, 100000, 0⟩] 10 5 = none ∧
    findBestLabelPositionP0 0 0 ("")
      [⟨("B"), -50000, -50000, 100000, 100000, 0⟩] 10 5 = none := by
  have hc : candidatesGG 0 0 =
      [(0, -15), (15, 0), (0, 15), (-15, 0), (12, -12), (12, 12), (-12, 12), (-12, -12),
       (0, -25), (25, 0), (0, 25), (-25, 0)] := by
    norm_num [candidatesGG, potentialOffsets]
  have hcp : positionsP0 (0 : ℚ) (0 : ℚ) =
      [(0, -15), (15, 0), (0, 15), (-15, 0), (15, -15), (15, 15), (-15, 15), (-15, -15),
       (0, -25), (25, 0), (0, 25), (-25, 0)] := by
    norm_num [positionsP0]
  have hsome : findBestLabelPositionGG 0 0 ("") [] 10 5 = some (0, -15) := by
    simp only [findBestLabelPositionGG, hc]
    rw [List.find?_cons_of_pos]
    simp
  refine ⟨?_, ?_, ?_, ?_⟩
  · exact ((find_position_c9 0 0 ("") [] 10 5).1 (0, -15) hsome).1
  · exact ((find_position_c9 0 0 ("") [] 10 5).1 (0, -15) hsome).2
  · apply (find_position_c9 0 0 ("") [⟨("B"), 0, 0, 100000, 100000, 0⟩] 10 5).2.1
    intro pos hpos
    refine ⟨_, List.mem_cons_self _ _, ?_⟩
    rw [hc] at hpos
    fin_cases hpos <;>
      (simp only [doLabelsOverlapGG, candidateRectGG, Bool.not_eq_true',
        Bool.or_eq_false_iff, decide_eq_false_iff_not]
       norm_num)
  · apply (find_position_c9 0 0 ("")
      [⟨("B"), -50000, -50000, 100000, 100000, 0⟩] 10 5).2.2.2
    intro pos hpos
    refine ⟨_, List.mem_cons_self _ _, ?_⟩
    rw [hcp] at hpos
    fin_cases hpos <;>
      (simp only [doLabelsOverlapP0, candidateRectP0, Bool.not_eq_true',
        Bool.or_eq_false_iff, decide_eq_false_iff_not]
       norm_num)

end ScatterApp
